import Mathlib

/-!
Verification of `containx/go-mesoslog` (`mesoslog/client.go`) against its
natural-language specification.

The Go file `client.go` is embedded shallowly: each pure helper becomes a
Lean function, Go strings become Lean `String` (with byte lengths taken via
`String.utf8ByteSize` where the Go code measures bytes), fallible code
returns `Option`/`Except`, and the two stateful loops (the per-task tail
loop and the fan-in merger) become a step function resp. a step relation.

The repository file declaring the state-document record types, the
`SortTasksByLatestTimestamp` comparator, `UpdateLastState` and the
`LogType` enumeration is not part of the sources at hand; those
declarations are modelled from the spec (each carries a doc comment saying
so).  Everything else is translated directly from `client.go`.
-/

/-! ## String helpers

Go's `strings` operations used by `client.go`, modelled over the character
list of a Lean `String`.  For a one-character separator, Go's byte-indexed
`strings.Index` / slicing and these character-level helpers produce the
same substrings, since the separator occupies exactly one byte and UTF-8
boundaries align. -/

/-- Split a character list at the first occurrence of `c`: returns the
prefix before the first `c` and, when `c` occurs, the remainder after it.
`(l, none)` means `c` does not occur (Go: `strings.Index` returns `-1`).
This models Go's `strings.SplitN(s, c, 2)`. -/
def breakAtChar (c : Char) : List Char → List Char × Option (List Char)
  | [] => ([], none)
  | x :: xs =>
    if x = c then ([], some xs)
    else
      let r := breakAtChar c xs
      (x :: r.1, r.2)

/-- Go's `strings.Split(s, c)` for a one-character separator `c`:
the list of segments between occurrences of `c` (never empty). -/
def splitOnChar (c : Char) : List Char → List (List Char)
  | [] => [[]]
  | x :: xs =>
    match splitOnChar c xs with
    | [] => [[]]
    | h :: t => if x = c then [] :: h :: t else (x :: h) :: t

/-! ## Data model

Record shapes of the master/slave state documents.  Modelled from the
spec (§3, §6) and from the field accesses in `client.go`; the Go file
declaring them is not among the sources.  Status timestamps are modelled
as integers: the claims involve only their relative order. -/

/-- Modelled from the spec: one status record of a task, carrying a
timestamp (spec §3: "an ordered sequence of status records each carrying a
timestamp"). -/
structure mstateTaskStatus where
  State : String
  Timestamp : Int
deriving DecidableEq

/-- Modelled from the spec (§3 TaskInstance) and the field accesses in
`client.go`: identity (`ID`, `Name`), owning node (`SlaveID`), owning
framework/executor (`FrameworkID`, `ExecutorID`), the ordered status
sequence, and the cached last state written by `UpdateLastState`. -/
structure mstateTask where
  ID : String
  Name : String
  SlaveID : String
  FrameworkID : String
  ExecutorID : String
  Statuses : List mstateTaskStatus
  LastState : Option mstateTaskStatus
deriving DecidableEq

/-- Modelled from the spec: `UpdateLastState` (absent from the sources at
hand) caches a status record on the task; it touches no other field. -/
def mstateTask.UpdateLastState (t : mstateTask) (s : Option mstateTaskStatus) : mstateTask :=
  { t with LastState := s }

/-- Modelled from the spec (§3 ExecutorRecord): identity and the absolute
sandbox directory path on its node. -/
structure mstateExecutor where
  ID : String
  Directory : String
deriving DecidableEq

/-- Modelled from the spec (§3 FrameworkRecord, §6): a framework groups
active and completed task lists and active and completed executor lists.
A `nil` Go slice is modelled as the empty list. -/
structure mstateFramework where
  ID : String
  Tasks : List mstateTask
  CompletedTasks : List mstateTask
  Executors : List mstateExecutor
  CompletedExecutors : List mstateExecutor
deriving DecidableEq

/-- Modelled from the spec (§3 NodeRecord): node identity, network
address, and the process-locator string (`Pid`). -/
structure mstateSlave where
  ID : String
  Hostname : String
  Pid : String
deriving DecidableEq

/-- Modelled from the spec (§6): the master state document — framework
list and node list. -/
structure masterState where
  Frameworks : List mstateFramework
  Slaves : List mstateSlave
deriving DecidableEq

/-- Modelled from the spec (§6): one node's own state document (same
framework/executor record shape, scoped to that node). -/
structure slaveState where
  Frameworks : List mstateFramework
deriving DecidableEq

/-- Result shape of `findTask`: matching tasks partitioned into
active and completed groups (`client.go`). -/
structure taskInfo where
  Tasks : List mstateTask
  CompletedTasks : List mstateTask
deriving DecidableEq

/-- Resolved sandbox location: node record, that node's state document and
the sandbox directory (`client.go` `slaveInfo`). -/
structure slaveInfo where
  Slave : mstateSlave
  State : slaveState
  Directory : String
deriving DecidableEq

/-- Client options (`client.go`). -/
structure MesosClientOptions where
  SearchCompletedTasks : Bool
  ShowLatestOnly : Bool
deriving DecidableEq

/-- Client state (`client.go`); the network-derived fields are plain
data here. -/
structure MesosClient where
  Host : String
  Port : Int
  MasterURL : String
  State : masterState
  Options : MesosClientOptions

/-- The fields of Go's `net/url.URL` that `constructSlaveURL` sets. -/
structure url.URL where
  Scheme : String
  Host : String
  Opaque : String
deriving DecidableEq

/-- Modelled from the spec (§6): the decoded payload of a paginated read —
the byte offset actually served and the data payload string.  The tailer
reads only the `Data` field. -/
structure readData where
  Offset : Int
  Data : String
deriving DecidableEq

/-- Modelled from the spec (§6): the log-kind enumeration, exactly two
values mapping to fixed filenames. -/
inductive LogType where
  | STDOUT
  | STDERR
deriving DecidableEq

/-- Modelled from the spec (§6): the fixed filename of a log kind (the Go
`String()` method of `LogType`, absent from the sources at hand). -/
def LogType.fileName : LogType → String
  | .STDOUT => "stdout"
  | .STDERR => "stderr"

/-- The error kinds of sandbox resolution; spec §7 names the three
failure messages of `getSlaveInfo` (missing node, unparsable locator
string, missing sandbox directory) `NodeNotFound`, `MalformedAddress`
and `DirectoryNotFound`. -/
inductive SlaveInfoError where
  | NodeNotFound
  | MalformedAddress
  | DirectoryNotFound
deriving DecidableEq

/-! ## Translations of the `client.go` functions -/

/-- `client.go` `findTaskLastState`: the last status of a task, if any. -/
def findTaskLastState (task : mstateTask) : Option mstateTaskStatus :=
  task.Statuses.getLast?

/-- `client.go` `findTask`: scan every framework, collect every task whose
`Name` or `ID` equals `appID` into the active group (from `Tasks`) resp.
the completed group (from `CompletedTasks`), refreshing each collected
task's cached last state. -/
def findTask (state : masterState) (appID : String) : taskInfo :=
  { Tasks :=
      state.Frameworks.flatMap fun fw =>
        (fw.Tasks.filter fun t => t.Name == appID || t.ID == appID).map fun t =>
          t.UpdateLastState (findTaskLastState t)
    CompletedTasks :=
      state.Frameworks.flatMap fun fw =>
        (fw.CompletedTasks.filter fun t => t.Name == appID || t.ID == appID).map fun t =>
          t.UpdateLastState (findTaskLastState t) }

/-- `client.go` `findSlave`: first node whose `ID` equals `slaveID`. -/
def findSlave (state : masterState) (slaveID : String) : Option mstateSlave :=
  state.Slaves.find? fun s => s.ID == slaveID

/-- `client.go` `constructSlaveURL`: split the node's `Pid`
(process locator) as `<service-name>@<rest>` (`strings.SplitN(pid, "@", 2)`,
error when no `@`), split `<rest>` on `:` taking the second segment as the
port (default `"80"`), and build the URL from the node's `Hostname` field
joined with that port. -/
def constructSlaveURL (slave : mstateSlave) : Except String url.URL :=
  match breakAtChar '@' slave.Pid.data with
  | (_, none) => .error ("invalid slave pid " ++ slave.Pid)
  | (slaveName, some rest) =>
    let hostAndPort := splitOnChar ':' rest
    let port :=
      match hostAndPort with
      | _ :: p :: _ => String.mk p
      | _ => "80"
    let host := slave.Hostname ++ ":" ++ port
    let path := String.mk slaveName ++ "/state.json"
    .ok { Scheme := "http", Host := host, Opaque := "//" ++ host ++ "/" ++ path }

/-- Scan loop of `client.go` `findDirectory`: frameworks whose `ID`
differs from the task's `FrameworkID` are skipped; in a matching
framework, the first executor whose `ID` equals the task's `ExecutorID`
or the task's `ID` yields its `Directory`; otherwise the scan continues
with the remaining frameworks. -/
def findDirectoryAux (task : mstateTask) (completedTasks : Bool) : List mstateFramework → String
  | [] => ""
  | fw :: rest =>
    if fw.ID == task.FrameworkID then
      let executors := if completedTasks then fw.CompletedExecutors else fw.Executors
      match executors.find? (fun e => e.ID == task.ExecutorID || e.ID == task.ID) with
      | some e => e.Directory
      | none => findDirectoryAux task completedTasks rest
    else findDirectoryAux task completedTasks rest

/-- `client.go` `findDirectory`: sandbox directory of the task's executor
in the node's state document, `""` when not found. -/
def findDirectory (sstate : slaveState) (task : mstateTask) (completedTasks : Bool) : String :=
  findDirectoryAux task completedTasks sstate.Frameworks

/-- `client.go` `getSlaveInfo`.  The network fetch of the node's state
document (`getSlaveState`, an external collaborator per spec §6) is passed
as an oracle `fetch`; transport errors are outside this model. -/
def getSlaveInfo (fetch : url.URL → slaveState) (c : MesosClient) (task : mstateTask) :
    Except SlaveInfoError slaveInfo :=
  match findSlave c.State task.SlaveID with
  | none => .error .NodeNotFound
  | some slave =>
    match constructSlaveURL slave with
    | .error _ => .error .MalformedAddress
    | .ok slaveURL =>
      let sstate := fetch slaveURL
      let directory := findDirectory sstate task c.Options.SearchCompletedTasks
      if directory == "" then .error .DirectoryNotFound
      else .ok { Slave := slave, State := sstate, Directory := directory }

/-- `client.go` `decorateLog`.  `none` models the Go panic (index out of
range) that `name[0:strings.Index(name, ".")]` resp.
`taskId[0:strings.Index(taskId, "-")]` raises when the separator is
absent.  Otherwise: split the id at its first `.`, take of the remainder
the part before its first `-`, and prefix every non-empty
newline-delimited line of `data` with `[<prefix>.<short-suffix>] `. -/
def decorateLog (name data : String) : Option String :=
  match breakAtChar '.' name.data with
  | (_, none) => none
  | (pre, some rest) =>
    match breakAtChar '-' rest with
    | (_, none) => none
    | (shortSuffix, some _) =>
      let dec := String.mk pre ++ "." ++ String.mk shortSuffix
      let lines := (splitOnChar '\n' data.data).map String.mk
      some (String.join ((lines.filter fun l => l.length > 0).map
        fun l => "[" ++ dec ++ "] " ++ l ++ "\n"))

/-! ## The tail loop (`asyncTail`), one poll cycle -/

/-- `client.go` constant `PageLength`. -/
def PageLength : Nat := 5000

/-- The URL of a paginated read (`client.go` `TailURIFmt` instantiated by
`asyncTail`). -/
def tailURI (host path : String) (offset length : Nat) : String :=
  "http://" ++ host ++ ":5051/files/read.json?path=" ++ path ++
    "&offset=" ++ toString offset ++ "&length=" ++ toString length

/-- Observable outcome of one iteration of the `asyncTail` polling loop. -/
structure TailCycleResult where
  request : String
  offset : Nat
  sleep : Option Nat
  emit : Option (Option String)
deriving DecidableEq

/-- One iteration of the goroutine body of `client.go` `asyncTail`, at
current offset `offset`.  `resp` is the decoded read response (`none`
models a failed download, which the loop skips without sleeping).  A
payload of fewer than 5 bytes causes a sleep of `duration` seconds and no
offset change; otherwise the offset advances by the payload's byte length
and the decorated payload is emitted (`emit = some r`, where `r = none`
models the `decorateLog` panic). -/
def asyncTailCycle (task : mstateTask) (s : slaveInfo) (lt : LogType) (duration : Nat)
    (offset : Nat) (resp : Option readData) : TailCycleResult :=
  let path := s.Directory ++ "/" ++ lt.fileName
  let url := tailURI s.Slave.Hostname path offset PageLength
  match resp with
  | none => { request := url, offset := offset, sleep := none, emit := none }
  | some rd =>
    if rd.Data.utf8ByteSize < 5 then
      { request := url, offset := offset, sleep := some duration, emit := none }
    else
      { request := url, offset := offset + rd.Data.utf8ByteSize, sleep := none,
        emit := some (decorateLog task.ID rd.Data) }

/-! ## Ordering of tasks in `GetLog` -/

/-- Modelled from the spec: the `SortTasksByLatestTimestamp` comparator is
declared outside the sources at hand; per spec §3/§4.1 a task with a later
latest-status timestamp comes first and tasks without any status sort
last.  `taskSortLE a b` says `a` may precede `b` in that order. -/
def taskSortLE (a b : mstateTask) : Bool :=
  match findTaskLastState a, findTaskLastState b with
  | _, none => true
  | none, some _ => false
  | some sa, some sb => sb.Timestamp ≤ sa.Timestamp

/-- The ordering relation behind `SortTasksByLatestTimestamp`. -/
def taskSortR (a b : mstateTask) : Prop := taskSortLE a b = true

instance : DecidableRel taskSortR := fun a b =>
  inferInstanceAs (Decidable (taskSortLE a b = true))

instance : IsTotal mstateTask taskSortR := by
  constructor
  intro a b
  unfold taskSortR taskSortLE
  rcases findTaskLastState a with _ | sa <;> rcases findTaskLastState b with _ | sb <;>
    (simp; try omega)

instance : IsTrans mstateTask taskSortR := by
  constructor
  intro a b c hab hbc
  unfold taskSortR taskSortLE at *
  cases ha : findTaskLastState a <;> cases hb : findTaskLastState b <;>
    cases hc : findTaskLastState c <;> (simp_all; try omega)

/-- Modelled from the spec: `sort.Sort(SortTasksByLatestTimestamp(tasks))`
sorts the task list by descending latest-status timestamp, statusless
tasks last. -/
def sortTasksByLatestTimestamp (tasks : List mstateTask) : List mstateTask :=
  List.insertionSort taskSortR tasks

/-- The task sequence `client.go` `GetLog` iterates: the matching group
selected by `SearchCompletedTasks`, sorted by `SortTasksByLatestTimestamp`,
the "application could not be found" failure on emptiness, then the
`ShowLatestOnly` truncation to the first task. -/
def getLogTasks (c : MesosClient) (appID : String) : Except String (List mstateTask) :=
  let ti := findTask c.State appID
  let tasks := if c.Options.SearchCompletedTasks then ti.CompletedTasks else ti.Tasks
  let sorted := sortTasksByLatestTimestamp tasks
  if sorted.isEmpty then .error "application could not be found"
  else .ok (if c.Options.ShowLatestOnly then sorted.take 1 else sorted)

/-- The task sequence `client.go` `TailLogToChannel` starts tailers for:
the active matching group exactly as `findTask` lists it — no sorting, no
option is consulted — with the "application could not be found" failure
on emptiness. -/
def tailLogTasks (c : MesosClient) (appID : String) : Except String (List mstateTask) :=
  let tasks := (findTask c.State appID).Tasks
  if tasks.isEmpty then .error "application could not be found"
  else .ok tasks

/-! ## The fan-in merger (`merge`)

`merge` starts one forwarding goroutine per source channel; each copies
its source's items, in order, to the shared output channel.  The state of
the merger is the list of each source's not-yet-forwarded items paired
with the output delivered so far; a step forwards the next item of any
source whose items are not exhausted.  This is the interleaving semantics
of the goroutines of `client.go` `merge` (with the consumer always ready,
matching the unbuffered output channel). -/

/-- One delivery step of `merge`: source `i` forwards its next pending
item to the output.  No condition mentions any other source: a source
never waits on its peers. -/
inductive mergeStep : List (List String) × List String → List (List String) × List String → Prop
  | deliver (srcs : List (List String)) (out : List String) (i : Nat) (x : String)
      (rest : List String) (h : srcs.get? i = some (x :: rest)) :
      mergeStep (srcs, out) (srcs.set i rest, out ++ [x])

/-- `mergeOutputs srcs out`: starting from pending items `srcs` and empty
output, some interleaving of the forwarding goroutines exhausts every
source and delivers exactly `out`. -/
def mergeOutputs (srcs : List (List String)) (out : List String) : Prop :=
  ∃ final, Relation.ReflTransGen mergeStep (srcs, []) (final, out) ∧ ∀ l ∈ final, l = []

/-! ## Helper lemmas -/

theorem UpdateLastState_Name (t : mstateTask) (s : Option mstateTaskStatus) :
    (t.UpdateLastState s).Name = t.Name := rfl

theorem UpdateLastState_ID (t : mstateTask) (s : Option mstateTaskStatus) :
    (t.UpdateLastState s).ID = t.ID := rfl

theorem mem_findTask_Tasks (st : masterState) (appID : String) (t : mstateTask) :
    t ∈ (findTask st appID).Tasks ↔
      ∃ fw ∈ st.Frameworks, ∃ t0 ∈ fw.Tasks,
        (t0.Name = appID ∨ t0.ID = appID) ∧ t = t0.UpdateLastState (findTaskLastState t0) := by
  simp only [findTask, List.mem_flatMap, List.mem_map, List.mem_filter, Bool.or_eq_true,
    beq_iff_eq]
  constructor
  · rintro ⟨fw, hfw, t0, ⟨ht0, hmatch⟩, rfl⟩
    exact ⟨fw, hfw, t0, ht0, hmatch, rfl⟩
  · rintro ⟨fw, hfw, t0, ht0, hmatch, rfl⟩
    exact ⟨fw, hfw, t0, ⟨ht0, hmatch⟩, rfl⟩

theorem mem_findTask_CompletedTasks (st : masterState) (appID : String) (t : mstateTask) :
    t ∈ (findTask st appID).CompletedTasks ↔
      ∃ fw ∈ st.Frameworks, ∃ t0 ∈ fw.CompletedTasks,
        (t0.Name = appID ∨ t0.ID = appID) ∧ t = t0.UpdateLastState (findTaskLastState t0) := by
  simp only [findTask, List.mem_flatMap, List.mem_map, List.mem_filter, Bool.or_eq_true,
    beq_iff_eq]
  constructor
  · rintro ⟨fw, hfw, t0, ⟨ht0, hmatch⟩, rfl⟩
    exact ⟨fw, hfw, t0, ht0, hmatch, rfl⟩
  · rintro ⟨fw, hfw, t0, ht0, hmatch, rfl⟩
    exact ⟨fw, hfw, t0, ⟨ht0, hmatch⟩, rfl⟩

/-- Claim C1: `findTask` returns exactly the tasks whose `id` or `name`
equals the identifier, correctly partitioned: a task is in the active
(resp. completed) group precisely when it arises from a matching task of
some framework's active (resp. completed) list, and no non-matching task
appears in either group. -/
theorem findTask_partition (st : masterState) (appID : String) :
    (∀ t, t ∈ (findTask st appID).Tasks ↔
        ∃ fw ∈ st.Frameworks, ∃ t0 ∈ fw.Tasks,
          (t0.Name = appID ∨ t0.ID = appID) ∧ t = t0.UpdateLastState (findTaskLastState t0))
    ∧ (∀ t, t ∈ (findTask st appID).CompletedTasks ↔
        ∃ fw ∈ st.Frameworks, ∃ t0 ∈ fw.CompletedTasks,
          (t0.Name = appID ∨ t0.ID = appID) ∧ t = t0.UpdateLastState (findTaskLastState t0))
    ∧ (∀ t, t ∈ (findTask st appID).Tasks ∨ t ∈ (findTask st appID).CompletedTasks →
        t.Name = appID ∨ t.ID = appID) := by
  refine ⟨mem_findTask_Tasks st appID, mem_findTask_CompletedTasks st appID, ?_⟩
  intro t ht
  rcases ht with h | h
  · rcases (mem_findTask_Tasks st appID t).mp h with ⟨fw, _, t0, _, hmatch, rfl⟩
    simpa [mstateTask.UpdateLastState] using hmatch
  · rcases (mem_findTask_CompletedTasks st appID t).mp h with ⟨fw, _, t0, _, hmatch, rfl⟩
    simpa [mstateTask.UpdateLastState] using hmatch

/-- A fixture for the `findTask` witness: one framework holding one
matching active task and one matching completed task. -/
def c1Task : mstateTask :=
  { ID := "app.u-1", Name := "app", SlaveID := "s1", FrameworkID := "f1",
    ExecutorID := "e1", Statuses := [{ State := "TASK_RUNNING", Timestamp := 3 }],
    LastState := none }

def c1Done : mstateTask :=
  { ID := "app.u-0", Name := "app", SlaveID := "s1", FrameworkID := "f1",
    ExecutorID := "e0", Statuses := [{ State := "TASK_FINISHED", Timestamp := 1 }],
    LastState := none }

def c1Framework : mstateFramework :=
  { ID := "f1", Tasks := [c1Task], CompletedTasks := [c1Done],
    Executors := [], CompletedExecutors := [] }

def c1State : masterState :=
  { Frameworks := [c1Framework], Slaves := [] }

/-- Witness for `findTask_partition` at a concrete cluster state. -/
theorem findTask_partition_witness :
    c1Task.UpdateLastState (findTaskLastState c1Task) ∈ (findTask c1State "app").Tasks ∧
    c1Done.UpdateLastState (findTaskLastState c1Done) ∈ (findTask c1State "app").CompletedTasks := by
  refine ⟨((findTask_partition c1State "app").1 _).mpr ?_,
    ((findTask_partition c1State "app").2.1 _).mpr ?_⟩
  · exact ⟨c1Framework, by simp [c1State], c1Task, by simp [c1Framework], Or.inl rfl, rfl⟩
  · exact ⟨c1Framework, by simp [c1State], c1Done, by simp [c1Framework], Or.inl rfl, rfl⟩

/-- Claim C10: `TailLogToChannel` considers only active tasks: it tails
exactly the active matching tasks in the unsorted order `findTask`
collects them from the master state, its result ignores both client
options, and it fails with "application could not be found" precisely
when no active task matches — even when completed tasks do. -/
theorem tailLogToChannel_active_only (c c' : MesosClient) (appID : String)
    (hst : c.State = c'.State) :
    tailLogTasks c appID = tailLogTasks c' appID
    ∧ (∀ l, tailLogTasks c appID = .ok l →
        l ≠ [] ∧ l = (findTask c.State appID).Tasks ∧
        ∀ t, t ∈ l ↔
          ∃ fw ∈ c.State.Frameworks, ∃ t0 ∈ fw.Tasks,
            (t0.Name = appID ∨ t0.ID = appID) ∧ t = t0.UpdateLastState (findTaskLastState t0))
    ∧ (tailLogTasks c appID = .error "application could not be found" ↔
        (findTask c.State appID).Tasks = []) := by
  refine ⟨by simp [tailLogTasks, hst], ?_, ?_⟩
  · intro l hl
    unfold tailLogTasks at hl
    by_cases he : (findTask c.State appID).Tasks.isEmpty
    · simp [he] at hl
    · simp [he] at hl
      subst hl
      exact ⟨by simpa [List.isEmpty_iff] using he, rfl, fun t => mem_findTask_Tasks c.State appID t⟩
  · unfold tailLogTasks
    by_cases he : (findTask c.State appID).Tasks.isEmpty
    · simp [he]
      simpa [List.isEmpty_iff] using he
    · simp [he]
      simpa [List.isEmpty_iff] using he

/-- A fixture for the `TailLogToChannel` witness: a state whose only
matching task is completed, so tailing fails even though `GetLog` with
`SearchCompletedTasks` would find it. -/
def c10Framework : mstateFramework :=
  { ID := "f1", Tasks := [], CompletedTasks := [c1Done],
    Executors := [], CompletedExecutors := [] }

def c10State : masterState :=
  { Frameworks := [c10Framework], Slaves := [] }

def c10Client (opts : MesosClientOptions) : MesosClient :=
  { Host := "h", Port := 5050, MasterURL := "http://h:5050", State := c10State, Options := opts }

/-- Witness for `tailLogToChannel_active_only`: with only a completed
match the call fails, and the two option settings agree. -/
theorem tailLogToChannel_active_only_witness :
    tailLogTasks (c10Client { SearchCompletedTasks := true, ShowLatestOnly := true }) "app" =
      tailLogTasks (c10Client { SearchCompletedTasks := false, ShowLatestOnly := false }) "app"
    ∧ tailLogTasks (c10Client { SearchCompletedTasks := true, ShowLatestOnly := true }) "app" =
      .error "application could not be found" := by
  have h := tailLogToChannel_active_only
    (c10Client { SearchCompletedTasks := true, ShowLatestOnly := true })
    (c10Client { SearchCompletedTasks := false, ShowLatestOnly := false }) "app" rfl
  exact ⟨h.1, h.2.2.mpr (by rfl)⟩

theorem breakAtChar_snd_eq_none (c : Char) (l : List Char) :
    (breakAtChar c l).2 = none ↔ c ∉ l := by
  induction l with
  | nil => simp [breakAtChar]
  | cons x xs ih =>
    by_cases hx : x = c
    · simp [breakAtChar, hx]
    · simp only [breakAtChar, if_neg hx]
      simp [ih, List.mem_cons]
      intro h
      exact fun hc => hx hc.symm

/-- Claim C5: `decorateLog` on task id `"webapp.1234abcd-5678"` and
payload `"line1\nline2\n"` yields exactly
`"[webapp.1234abcd] line1\n[webapp.1234abcd] line2\n"`; in general, when
the id splits as `<p>.<rest>` at the first `.` and `rest` splits as
`<s>-...` at the first `-`, the output keeps exactly the non-empty
newline-delimited lines of the payload, each prefixed with `[p.s] `. -/
theorem decorateLog_spec :
    decorateLog "webapp.1234abcd-5678" "line1\nline2\n" =
      some "[webapp.1234abcd] line1\n[webapp.1234abcd] line2\n"
    ∧ ∀ name data pre rest shortSuffix rest2,
        breakAtChar '.' name.data = (pre, some rest) →
        breakAtChar '-' rest = (shortSuffix, some rest2) →
        decorateLog name data =
          some (String.join
            ((((splitOnChar '\n' data.data).map String.mk).filter fun l => l.length > 0).map
              fun l => "[" ++ (String.mk pre ++ "." ++ String.mk shortSuffix) ++ "] " ++ l ++ "\n")) := by
  constructor
  · decide
  · intro name data pre rest shortSuffix rest2 h1 h2
    unfold decorateLog
    rw [h1]
    dsimp only
    rw [h2]

/-- Witness for `decorateLog_spec` at a payload with an empty line. -/
theorem decorateLog_spec_witness :
    decorateLog "a.b-c" "x\n\ny" =
      some (String.join
        ((((splitOnChar '\n' ("x\n\ny" : String).data).map String.mk).filter
            fun l => l.length > 0).map
          fun l => "[" ++ (String.mk ['a'] ++ "." ++ String.mk ['b']) ++ "] " ++ l ++ "\n")) :=
  decorateLog_spec.2 "a.b-c" "x\n\ny" ['a'] ['b', '-', 'c'] ['b'] ['c'] (by decide) (by decide)

/-- Claim C6: `decorateLog` succeeds (its index-out-of-range branch is
unreachable) exactly for task ids that contain a `.` whose remainder
after the first `.` contains a `-`; lacking either separator it fails
(the `none` result models the Go panic). -/
theorem decorateLog_defined_iff (name data : String) :
    (decorateLog name data).isSome = true ↔
      '.' ∈ name.data ∧ '-' ∈ (breakAtChar '.' name.data).2.getD [] := by
  unfold decorateLog
  cases h1 : breakAtChar '.' name.data with
  | mk pre rest? =>
    cases rest? with
    | none =>
      have hdot : '.' ∉ name.data := by
        have := (breakAtChar_snd_eq_none '.' name.data).mp
        rw [h1] at this
        exact this rfl
      simp [hdot]
    | some rest =>
      have hdot : '.' ∈ name.data := by
        by_contra hc
        have := (breakAtChar_snd_eq_none '.' name.data).mpr hc
        rw [h1] at this
        simp at this
      dsimp only
      cases h2 : breakAtChar '-' rest with
      | mk shortSuffix rest2? =>
        cases rest2? with
        | none =>
          have hdash : '-' ∉ rest := by
            have := (breakAtChar_snd_eq_none '-' rest).mp
            rw [h2] at this
            exact this rfl
          simp [hdot, hdash]
        | some rest2 =>
          have hdash : '-' ∈ rest := by
            by_contra hc
            have := (breakAtChar_snd_eq_none '-' rest).mpr hc
            rw [h2] at this
            simp at this
          simp [hdot, hdash]

/-- Witness for `decorateLog_defined_iff`: defined at the documented id
shape, undefined at an id lacking the `-` separator. -/
theorem decorateLog_defined_iff_witness :
    (decorateLog "webapp.1234abcd-5678" "d").isSome = true
    ∧ (decorateLog "webapp.1234abcd" "d").isSome = false := by
  constructor
  · exact (decorateLog_defined_iff "webapp.1234abcd-5678" "d").mpr (by decide)
  · decide

theorem asyncTailCycle_request (task : mstateTask) (s : slaveInfo) (lt : LogType)
    (duration offset : Nat) (resp : Option readData) :
    (asyncTailCycle task s lt duration offset resp).request =
      tailURI s.Slave.Hostname (s.Directory ++ "/" ++ lt.fileName) offset PageLength := by
  unfold asyncTailCycle
  cases resp with
  | none => rfl
  | some rd =>
    by_cases h : rd.Data.utf8ByteSize < 5 <;> simp [h]

/-- A fixture slave info and task for the tail-cycle theorems. -/
def c3Slave : slaveInfo :=
  { Slave := { ID := "s1", Hostname := "h", Pid := "svc@h:5051" },
    State := { Frameworks := [] }, Directory := "/tmp/sandbox" }

/-- Counterexample to claim C3 as stated: a successful read whose payload
`"abc"` has byte length 3 (< 5) does not advance the offset to `O + 3`;
the tailer backs off instead. -/
theorem asyncTail_offset_claim_cex :
    ¬ ((asyncTailCycle c1Task c3Slave LogType.STDOUT 1 7
          (some { Offset := 0, Data := "abc" })).offset =
        7 + ("abc" : String).utf8ByteSize) := by
  decide

/-- Claim C3 (amended: payload byte length at least 5): a poll cycle at
offset `O` whose read returns a payload of byte length `L ≥ 5` sets the
offset to `O + L`, and the next cycle's read — whatever its response —
requests exactly offset `O + L`. -/
theorem asyncTail_offset_advance (task : mstateTask) (s : slaveInfo) (lt : LogType)
    (duration offset : Nat) (rd : readData) (h : 5 ≤ rd.Data.utf8ByteSize)
    (resp' : Option readData) :
    (asyncTailCycle task s lt duration offset (some rd)).offset =
      offset + rd.Data.utf8ByteSize
    ∧ (asyncTailCycle task s lt duration
          (asyncTailCycle task s lt duration offset (some rd)).offset resp').request =
        tailURI s.Slave.Hostname (s.Directory ++ "/" ++ lt.fileName)
          (offset + rd.Data.utf8ByteSize) PageLength := by
  have hoff : (asyncTailCycle task s lt duration offset (some rd)).offset =
      offset + rd.Data.utf8ByteSize := by
    unfold asyncTailCycle
    simp [Nat.not_lt.mpr h]
  exact ⟨hoff, by rw [hoff, asyncTailCycle_request]⟩

/-- Witness for `asyncTail_offset_advance` at a 5-byte payload. -/
theorem asyncTail_offset_advance_witness :
    (asyncTailCycle c1Task c3Slave LogType.STDOUT 1 7
        (some { Offset := 0, Data := "hello" })).offset = 12
    ∧ (asyncTailCycle c1Task c3Slave LogType.STDOUT 1
          (asyncTailCycle c1Task c3Slave LogType.STDOUT 1 7
            (some { Offset := 0, Data := "hello" })).offset none).request =
        tailURI "h" "/tmp/sandbox/stdout" 12 PageLength :=
  asyncTail_offset_advance c1Task c3Slave LogType.STDOUT 1 7
    { Offset := 0, Data := "hello" } (by decide) none

/-- Claim C4: a poll cycle at offset `O` whose read returns a payload of
byte length below 5 emits nothing, sleeps the configured interval, keeps
the offset at `O`, and the next cycle's read — whatever its response —
requests the same offset `O`. -/
theorem asyncTail_backoff (task : mstateTask) (s : slaveInfo) (lt : LogType)
    (duration offset : Nat) (rd : readData) (h : rd.Data.utf8ByteSize < 5)
    (resp' : Option readData) :
    asyncTailCycle task s lt duration offset (some rd) =
      { request := tailURI s.Slave.Hostname (s.Directory ++ "/" ++ lt.fileName) offset PageLength,
        offset := offset, sleep := some duration, emit := none }
    ∧ (asyncTailCycle task s lt duration
          (asyncTailCycle task s lt duration offset (some rd)).offset resp').request =
        tailURI s.Slave.Hostname (s.Directory ++ "/" ++ lt.fileName) offset PageLength := by
  have hcyc : asyncTailCycle task s lt duration offset (some rd) =
      { request := tailURI s.Slave.Hostname (s.Directory ++ "/" ++ lt.fileName) offset PageLength,
        offset := offset, sleep := some duration, emit := none } := by
    unfold asyncTailCycle
    simp [h]
  exact ⟨hcyc, by rw [hcyc]; exact asyncTailCycle_request task s lt duration offset resp'⟩

/-- Witness for `asyncTail_backoff` at a 3-byte payload. -/
theorem asyncTail_backoff_witness :
    asyncTailCycle c1Task c3Slave LogType.STDOUT 2 7 (some { Offset := 0, Data := "abc" }) =
      { request := tailURI "h" "/tmp/sandbox/stdout" 7 PageLength,
        offset := 7, sleep := some 2, emit := none }
    ∧ (asyncTailCycle c1Task c3Slave LogType.STDOUT 2
          (asyncTailCycle c1Task c3Slave LogType.STDOUT 2 7
            (some { Offset := 0, Data := "abc" })).offset none).request =
        tailURI "h" "/tmp/sandbox/stdout" 7 PageLength :=
  asyncTail_backoff c1Task c3Slave LogType.STDOUT 2 7 { Offset := 0, Data := "abc" }
    (by decide) none

theorem splitOnChar_of_not_mem (c : Char) (l : List Char) (h : c ∉ l) :
    splitOnChar c l = [l] := by
  induction l with
  | nil => rfl
  | cons x xs ih =>
    have hx : ¬ x = c := fun hc => h (hc ▸ List.mem_cons_self x xs)
    have hxs : c ∉ xs := fun hc => h (List.mem_cons_of_mem x hc)
    unfold splitOnChar
    rw [ih hxs]
    simp [hx]

theorem splitOnChar_cons (c x : Char) (xs : List Char) :
    splitOnChar c (x :: xs) =
      match splitOnChar c xs with
      | [] => [[]]
      | h :: t => if x = c then [] :: h :: t else (x :: h) :: t := rfl

theorem breakAtChar_cons (c x : Char) (xs : List Char) :
    breakAtChar c (x :: xs) =
      if x = c then ([], some xs)
      else (x :: (breakAtChar c xs).1, (breakAtChar c xs).2) := rfl

theorem splitOnChar_ne_nil (c : Char) (l : List Char) : splitOnChar c l ≠ [] := by
  cases l with
  | nil => simp [splitOnChar]
  | cons x xs =>
    rw [splitOnChar_cons]
    cases splitOnChar c xs with
    | nil => simp
    | cons h t => by_cases hx : x = c <;> simp [hx]

theorem splitOnChar_of_breakAtChar (c : Char) :
    ∀ l pre rest : List Char, breakAtChar c l = (pre, some rest) →
      splitOnChar c l = pre :: splitOnChar c rest := by
  intro l
  induction l with
  | nil => intro pre rest h; simp [breakAtChar] at h
  | cons x xs ih =>
    intro pre rest h
    rw [breakAtChar_cons] at h
    by_cases hx : x = c
    · rw [if_pos hx] at h
      rw [Prod.mk.injEq] at h
      obtain ⟨rfl, hr⟩ := h
      obtain rfl := Option.some.inj hr
      rw [splitOnChar_cons]
      cases hs : splitOnChar c xs with
      | nil => exact absurd hs (splitOnChar_ne_nil c xs)
      | cons a t => simp [hx]
    · rw [if_neg hx] at h
      cases hb : breakAtChar c xs with
      | mk p r =>
        rw [hb] at h
        rw [Prod.mk.injEq] at h
        obtain ⟨rfl, hr⟩ := h
        cases r with
        | none => simp at hr
        | some r2 =>
          have hr2 : r2 = rest := Option.some.inj hr
          subst hr2
          have hrec := ih p r2 hb
          rw [splitOnChar_cons, hrec]
          simp [hx]

/-- Claim C8: for a node whose process locator contains `@`,
`constructSlaveURL` builds the state-query URL whose host is the node's
`Hostname` field joined with the port taken from the locator's post-`@`
part (the literal `"80"` when that part has no `:`), and whose opaque
path embeds the pre-`@` service name; the host text inside the locator is
never used as the address host. -/
theorem constructSlaveURL_spec (slave : mstateSlave) (pre rest : List Char)
    (h : breakAtChar '@' slave.Pid.data = (pre, some rest)) :
    ∃ u, constructSlaveURL slave = .ok u ∧
      u.Scheme = "http"
      ∧ u.Host = slave.Hostname ++ ":" ++
          (match splitOnChar ':' rest with
            | _ :: p :: _ => String.mk p
            | _ => "80")
      ∧ (':' ∉ rest → u.Host = slave.Hostname ++ ":" ++ "80")
      ∧ (∀ hostPart portPart, breakAtChar ':' rest = (hostPart, some portPart) →
          ':' ∉ portPart → u.Host = slave.Hostname ++ ":" ++ String.mk portPart)
      ∧ u.Opaque = "//" ++ u.Host ++ "/" ++ (String.mk pre ++ "/state.json") := by
  have hu : constructSlaveURL slave = .ok
      { Scheme := "http",
        Host := slave.Hostname ++ ":" ++
          (match splitOnChar ':' rest with
            | _ :: p :: _ => String.mk p
            | _ => "80"),
        Opaque := "//" ++ (slave.Hostname ++ ":" ++
          (match splitOnChar ':' rest with
            | _ :: p :: _ => String.mk p
            | _ => "80")) ++ "/" ++ (String.mk pre ++ "/state.json") } := by
    unfold constructSlaveURL
    rw [h]
  refine ⟨_, hu, rfl, rfl, ?_, ?_, rfl⟩
  · intro hc
    rw [splitOnChar_of_not_mem ':' rest hc]
  · intro hostPart portPart hbp hnc
    rw [splitOnChar_of_breakAtChar ':' rest hostPart portPart hbp,
      splitOnChar_of_not_mem ':' portPart hnc]

def c8Slave : mstateSlave := { ID := "s8", Hostname := "node7", Pid := "svc@ip:81" }

/-- Witness for `constructSlaveURL_spec`: the URL host takes the port
from the locator but the hostname from the node record. -/
theorem constructSlaveURL_spec_witness :
    ∃ u, constructSlaveURL c8Slave = .ok u ∧ u.Host = "node7" ++ ":" ++ "81" := by
  obtain ⟨u, hu, _, _, _, hsingle, _⟩ :=
    constructSlaveURL_spec c8Slave ['s', 'v', 'c'] ['i', 'p', ':', '8', '1'] (by decide)
  refine ⟨u, hu, ?_⟩
  have := hsingle ['i', 'p'] ['8', '1'] (by decide) (by decide)
  simpa using this

theorem findSlave_eq_none_iff (st : masterState) (slaveID : String) :
    findSlave st slaveID = none ↔ ∀ s ∈ st.Slaves, s.ID ≠ slaveID := by
  unfold findSlave
  rw [List.find?_eq_none]
  constructor
  · intro h s hs
    simpa using h s hs
  · intro h s hs
    simpa using h s hs

theorem findSlave_eq_some (st : masterState) (slaveID : String) (s : mstateSlave)
    (h : findSlave st slaveID = some s) : s ∈ st.Slaves ∧ s.ID = slaveID := by
  unfold findSlave at h
  refine ⟨List.mem_of_find?_eq_some h, ?_⟩
  have hp := List.find?_some h
  exact eq_of_beq hp

/-- The shape `constructSlaveURL` returns when the locator contains `@`. -/
theorem constructSlaveURL_eq_ok (slave : mstateSlave) (pre rest : List Char)
    (h : breakAtChar '@' slave.Pid.data = (pre, some rest)) :
    constructSlaveURL slave = .ok
      { Scheme := "http",
        Host := slave.Hostname ++ ":" ++
          (match splitOnChar ':' rest with
            | _ :: p :: _ => String.mk p
            | _ => "80"),
        Opaque := "//" ++ (slave.Hostname ++ ":" ++
          (match splitOnChar ':' rest with
            | _ :: p :: _ => String.mk p
            | _ => "80")) ++ "/" ++ (String.mk pre ++ "/state.json") } := by
  unfold constructSlaveURL
  rw [h]

theorem constructSlaveURL_eq_error (slave : mstateSlave) (pre : List Char)
    (h : breakAtChar '@' slave.Pid.data = (pre, none)) :
    constructSlaveURL slave = .error ("invalid slave pid " ++ slave.Pid) := by
  unfold constructSlaveURL
  rw [h]

/-- The directories of the executors `findDirectory` can match: executors
of the frameworks whose `ID` equals the task's `FrameworkID` (completed
executors when searching completed tasks) whose `ID` equals the task's
`ExecutorID` or the task's `ID`, in scan order. -/
def matchingExecutorDirs (sstate : slaveState) (task : mstateTask) (completedTasks : Bool) :
    List String :=
  (sstate.Frameworks.filter fun fw => fw.ID == task.FrameworkID).flatMap fun fw =>
    ((if completedTasks then fw.CompletedExecutors else fw.Executors).filter
        fun e => e.ID == task.ExecutorID || e.ID == task.ID).map fun e => e.Directory

theorem find?_eq_head?_of_filter {α : Type} (p : α → Bool) (l : List α) :
    l.find? p = (l.filter p).head? := by
  induction l with
  | nil => rfl
  | cons x xs ih =>
    by_cases hx : p x
    · rw [List.find?_cons_of_pos _ hx, List.filter_cons_of_pos hx, List.head?_cons]
    · rw [List.find?_cons_of_neg _ hx, List.filter_cons_of_neg hx, ih]

theorem findDirectory_eq_headD (sstate : slaveState) (task : mstateTask)
    (completedTasks : Bool) :
    findDirectory sstate task completedTasks =
      (matchingExecutorDirs sstate task completedTasks).headD "" := by
  unfold findDirectory matchingExecutorDirs
  induction sstate.Frameworks with
  | nil => rfl
  | cons fw rest ih =>
    rw [List.filter_cons]
    by_cases hid : fw.ID == task.FrameworkID
    · rw [findDirectoryAux, if_pos hid, if_pos hid, List.flatMap_cons]
      dsimp only
      cases hf : (if completedTasks then fw.CompletedExecutors else fw.Executors).find?
          (fun e => e.ID == task.ExecutorID || e.ID == task.ID) with
      | some e =>
        rw [find?_eq_head?_of_filter] at hf
        cases hfil : ((if completedTasks then fw.CompletedExecutors else fw.Executors).filter
            (fun e => e.ID == task.ExecutorID || e.ID == task.ID)) with
        | nil => rw [hfil] at hf; simp at hf
        | cons e0 es =>
          rw [hfil] at hf
          simp only [List.head?_cons, Option.some.injEq] at hf
          subst hf
          simp
      | none =>
        rw [find?_eq_head?_of_filter] at hf
        have hfil : ((if completedTasks then fw.CompletedExecutors else fw.Executors).filter
            (fun e => e.ID == task.ExecutorID || e.ID == task.ID)) = [] := by
          cases hx : ((if completedTasks then fw.CompletedExecutors else fw.Executors).filter
              (fun e => e.ID == task.ExecutorID || e.ID == task.ID)) with
          | nil => rfl
          | cons a t => rw [hx] at hf; simp at hf
        rw [hfil]
        simpa using ih
    · rw [findDirectoryAux, if_neg hid, if_neg hid]
      exact ih

/-- Claim C2 (amended: the directory lookup also fails when the first
matching executor's directory path is the empty string): sandbox
resolution fails with `NodeNotFound` exactly when no node carries the
task's `slaveID`; with `MalformedAddress` exactly when the resolved
node's locator has no `@`; with `DirectoryNotFound` exactly when the
first matching executor directory — over frameworks with the task's
`frameworkID` and executors whose id equals the task's `executorID` or
`id` — is absent or empty; otherwise it returns exactly that directory
paired with the node record, never a partial location. -/
theorem getSlaveInfo_resolution (fetch : url.URL → slaveState) (c : MesosClient)
    (task : mstateTask) :
    (getSlaveInfo fetch c task = .error .NodeNotFound ↔
      ∀ s ∈ c.State.Slaves, s.ID ≠ task.SlaveID)
    ∧ (getSlaveInfo fetch c task = .error .MalformedAddress ↔
      ∃ slave, findSlave c.State task.SlaveID = some slave ∧ '@' ∉ slave.Pid.data)
    ∧ (getSlaveInfo fetch c task = .error .DirectoryNotFound ↔
      ∃ slave u, findSlave c.State task.SlaveID = some slave ∧
        constructSlaveURL slave = .ok u ∧
        (matchingExecutorDirs (fetch u) task c.Options.SearchCompletedTasks).headD "" = "")
    ∧ (∀ si, getSlaveInfo fetch c task = .ok si ↔
      ∃ slave u, findSlave c.State task.SlaveID = some slave ∧
        constructSlaveURL slave = .ok u ∧
        (matchingExecutorDirs (fetch u) task c.Options.SearchCompletedTasks).headD "" ≠ "" ∧
        si = { Slave := slave, State := fetch u,
               Directory := (matchingExecutorDirs (fetch u) task
                 c.Options.SearchCompletedTasks).headD "" }) := by
  cases hs : findSlave c.State task.SlaveID with
  | none =>
    have hres : getSlaveInfo fetch c task = .error .NodeNotFound := by
      unfold getSlaveInfo
      rw [hs]
    have hall := (findSlave_eq_none_iff c.State task.SlaveID).mp hs
    rw [hres]
    refine ⟨⟨fun _ => hall, fun _ => rfl⟩, ?_, ?_, ?_⟩
    · constructor
      · intro h
        simp at h
      · rintro ⟨slave, hsl, -⟩
        simp at hsl
    · constructor
      · intro h
        simp at h
      · rintro ⟨slave, u, hsl, -, -⟩
        simp at hsl
    · intro si
      constructor
      · intro h
        simp at h
      · rintro ⟨slave, u, hsl, -, -, -⟩
        simp at hsl
  | some slave =>
    have hsm := findSlave_eq_some c.State task.SlaveID slave hs
    cases hb : breakAtChar '@' slave.Pid.data with
    | mk pre rest? =>
      cases rest? with
      | none =>
        have herr := constructSlaveURL_eq_error slave pre hb
        have hnotat : '@' ∉ slave.Pid.data :=
          (breakAtChar_snd_eq_none '@' slave.Pid.data).mp (by rw [hb])
        have hres : getSlaveInfo fetch c task = .error .MalformedAddress := by
          unfold getSlaveInfo
          rw [hs]
          dsimp only
          rw [herr]
        rw [hres]
        refine ⟨?_, ⟨fun _ => ⟨slave, rfl, hnotat⟩, fun _ => rfl⟩, ?_, ?_⟩
        · constructor
          · intro h
            simp at h
          · intro hall
            exact absurd hsm.2 (hall slave hsm.1)
        · constructor
          · intro h
            simp at h
          · rintro ⟨s', u', hss, hok', -⟩
            obtain rfl : slave = s' := Option.some.inj hss
            rw [herr] at hok'
            simp at hok'
        · intro si
          constructor
          · intro h
            simp at h
          · rintro ⟨s', u', hss, hok', -, -⟩
            obtain rfl : slave = s' := Option.some.inj hss
            rw [herr] at hok'
            simp at hok'
      | some rest =>
        have hat : '@' ∈ slave.Pid.data := by
          by_contra hc
          have hn := (breakAtChar_snd_eq_none '@' slave.Pid.data).mpr hc
          rw [hb] at hn
          simp at hn
        obtain ⟨u0, hok⟩ : ∃ u, constructSlaveURL slave = .ok u :=
          ⟨_, constructSlaveURL_eq_ok slave pre rest hb⟩
        have hdir := findDirectory_eq_headD (fetch u0) task c.Options.SearchCompletedTasks
        by_cases hdd :
            (matchingExecutorDirs (fetch u0) task c.Options.SearchCompletedTasks).headD "" = ""
        · have hres : getSlaveInfo fetch c task = .error .DirectoryNotFound := by
            unfold getSlaveInfo
            rw [hs]
            dsimp only
            rw [hok]
            have hdd2 : (matchingExecutorDirs (fetch u0) task
                c.Options.SearchCompletedTasks).head?.getD "" = "" := by
              simpa [List.headD_eq_head?_getD] using hdd
            simp [hdir, hdd2]
          rw [hres]
          refine ⟨?_, ?_, ⟨fun _ => ⟨slave, u0, rfl, hok, hdd⟩, fun _ => rfl⟩, ?_⟩
          · constructor
            · intro h
              simp at h
            · intro hall
              exact absurd hsm.2 (hall slave hsm.1)
          · constructor
            · intro h
              simp at h
            · rintro ⟨s', hss, hna⟩
              obtain rfl : slave = s' := Option.some.inj hss
              exact absurd hat hna
          · intro si
            constructor
            · intro h
              simp at h
            · rintro ⟨s', u', hss, hok', hne, -⟩
              obtain rfl : slave = s' := Option.some.inj hss
              rw [hok] at hok'
              obtain rfl : u0 = u' := Except.ok.inj hok'
              exact absurd hdd hne
        · have hres : getSlaveInfo fetch c task = .ok
              { Slave := slave, State := fetch u0,
                Directory :=
                  (matchingExecutorDirs (fetch u0) task
                    c.Options.SearchCompletedTasks).headD "" } := by
            unfold getSlaveInfo
            rw [hs]
            dsimp only
            rw [hok]
            have hdd2 : ¬ (matchingExecutorDirs (fetch u0) task
                c.Options.SearchCompletedTasks).head?.getD "" = "" := by
              simpa [List.headD_eq_head?_getD] using hdd
            simp [hdir, hdd2]
          rw [hres]
          refine ⟨?_, ?_, ?_, ?_⟩
          · constructor
            · intro h
              simp at h
            · intro hall
              exact absurd hsm.2 (hall slave hsm.1)
          · constructor
            · intro h
              simp at h
            · rintro ⟨s', hss, hna⟩
              obtain rfl : slave = s' := Option.some.inj hss
              exact absurd hat hna
          · constructor
            · intro h
              simp at h
            · rintro ⟨s', u', hss, hok', hdd'⟩
              obtain rfl : slave = s' := Option.some.inj hss
              rw [hok] at hok'
              obtain rfl : u0 = u' := Except.ok.inj hok'
              exact absurd hdd' hdd
          · intro si
            constructor
            · intro h
              obtain rfl := (Except.ok.inj h).symm
              exact ⟨slave, u0, rfl, hok, hdd, rfl⟩
            · rintro ⟨s', u', hss, hok', -, rfl⟩
              obtain rfl : slave = s' := Option.some.inj hss
              rw [hok] at hok'
              obtain rfl : u0 = u' := Except.ok.inj hok'
              rfl

def c2Task : mstateTask :=
  { ID := "app.u-2", Name := "app", SlaveID := "s1", FrameworkID := "f1",
    ExecutorID := "e1", Statuses := [], LastState := none }

def c2Slave : mstateSlave := { ID := "s1", Hostname := "h", Pid := "svc@ip:5051" }

def c2SlaveFramework : mstateFramework :=
  { ID := "f1", Tasks := [], CompletedTasks := [],
    Executors := [{ ID := "e1", Directory := "" }], CompletedExecutors := [] }

def c2SlaveState : slaveState := { Frameworks := [c2SlaveFramework] }

def c2Client : MesosClient :=
  { Host := "h", Port := 5050, MasterURL := "http://h:5050",
    State := { Frameworks := [], Slaves := [c2Slave] },
    Options := { SearchCompletedTasks := false, ShowLatestOnly := false } }

def c2ClientNoSlave : MesosClient :=
  { Host := "h", Port := 5050, MasterURL := "http://h:5050",
    State := { Frameworks := [], Slaves := [] },
    Options := { SearchCompletedTasks := false, ShowLatestOnly := false } }

/-- Counterexample to claim C2 as stated: the node state holds an
executor whose id equals the task's `executorID` in a framework whose id
equals the task's `frameworkID`, yet resolution fails with
`DirectoryNotFound` — because that executor's directory is the empty
string, which `getSlaveInfo` cannot distinguish from "not found". -/
theorem getSlaveInfo_claim_cex :
    (∃ fw ∈ c2SlaveState.Frameworks, fw.ID = c2Task.FrameworkID ∧
      ∃ e ∈ fw.Executors, e.ID = c2Task.ExecutorID)
    ∧ getSlaveInfo (fun _ => c2SlaveState) c2Client c2Task = .error .DirectoryNotFound := by
  constructor
  · exact ⟨c2SlaveFramework, by simp [c2SlaveState], rfl,
      { ID := "e1", Directory := "" }, by simp [c2SlaveFramework], rfl⟩
  · rfl

/-- Witness for `getSlaveInfo_resolution`: the `NodeNotFound` case at an
empty node list and the (amended) `DirectoryNotFound` case at an
empty-directory executor match. -/
theorem getSlaveInfo_resolution_witness :
    getSlaveInfo (fun _ => c2SlaveState) c2ClientNoSlave c2Task = .error .NodeNotFound
    ∧ getSlaveInfo (fun _ => c2SlaveState) c2Client c2Task = .error .DirectoryNotFound := by
  constructor
  · exact (getSlaveInfo_resolution (fun _ => c2SlaveState) c2ClientNoSlave c2Task).1.mpr
      (by simp [c2ClientNoSlave])
  · exact (getSlaveInfo_resolution (fun _ => c2SlaveState) c2Client c2Task).2.2.1.mpr
      ⟨c2Slave, { Scheme := "http", Host := "h:5051", Opaque := "//h:5051/svc/state.json" },
        rfl, rfl, rfl⟩

theorem sortTasks_pairwise (ts : List mstateTask) :
    (sortTasksByLatestTimestamp ts).Pairwise fun A B =>
      (∀ sa sb, findTaskLastState A = some sa → findTaskLastState B = some sb →
        sb.Timestamp ≤ sa.Timestamp)
      ∧ (findTaskLastState A = none → findTaskLastState B = none) := by
  have hs := List.sorted_insertionSort taskSortR ts
  refine List.Pairwise.imp ?_ hs
  intro A B hAB
  unfold taskSortR taskSortLE at hAB
  constructor
  · intro sa sb hsa hsb
    rw [hsa, hsb] at hAB
    simpa using hAB
  · intro hA
    cases hB : findTaskLastState B with
    | none => rfl
    | some sb =>
      rw [hA, hB] at hAB
      simp at hAB

/-- Claim C7: in the task sequence `GetLog` iterates, no later task has a
strictly more recent latest status than an earlier one (so `tA > tB`
forces A before B), and a task without any status never precedes one with
a status.  A task's latest status is the last element of its status list. -/
theorem getLog_tasks_sorted (c : MesosClient) (appID : String) (l : List mstateTask)
    (h : getLogTasks c appID = .ok l) :
    l.Pairwise fun A B =>
      (∀ sa sb, findTaskLastState A = some sa → findTaskLastState B = some sb →
        sb.Timestamp ≤ sa.Timestamp)
      ∧ (findTaskLastState A = none → findTaskLastState B = none) := by
  unfold getLogTasks at h
  by_cases he : (sortTasksByLatestTimestamp
      (if c.Options.SearchCompletedTasks then (findTask c.State appID).CompletedTasks
        else (findTask c.State appID).Tasks)).isEmpty
  · rw [if_pos he] at h
    simp at h
  · rw [if_neg he] at h
    by_cases hlatest : c.Options.ShowLatestOnly
    · rw [if_pos hlatest] at h
      obtain rfl := (Except.ok.inj h).symm
      exact List.Pairwise.sublist (List.take_sublist 1 _) (sortTasks_pairwise _)
    · rw [if_neg hlatest] at h
      obtain rfl := (Except.ok.inj h).symm
      exact sortTasks_pairwise _

def c7TaskA : mstateTask :=
  { ID := "app.u-3", Name := "app", SlaveID := "s1", FrameworkID := "f1",
    ExecutorID := "e1", Statuses := [{ State := "TASK_RUNNING", Timestamp := 1 }],
    LastState := none }

def c7TaskB : mstateTask :=
  { ID := "app.u-4", Name := "app", SlaveID := "s1", FrameworkID := "f1",
    ExecutorID := "e2", Statuses := [{ State := "TASK_STAGING", Timestamp := 0 },
      { State := "TASK_RUNNING", Timestamp := 3 }],
    LastState := none }

def c7Framework : mstateFramework :=
  { ID := "f1", Tasks := [c7TaskA, c7TaskB], CompletedTasks := [],
    Executors := [], CompletedExecutors := [] }

def c7Client : MesosClient :=
  { Host := "h", Port := 5050, MasterURL := "http://h:5050",
    State := { Frameworks := [c7Framework], Slaves := [] },
    Options := { SearchCompletedTasks := false, ShowLatestOnly := false } }

/-- Witness for `getLog_tasks_sorted`: the listed order has the older
task first; `GetLog` iterates the younger one first. -/
theorem getLog_tasks_sorted_witness :
    List.Pairwise (fun A B =>
      (∀ sa sb, findTaskLastState A = some sa → findTaskLastState B = some sb →
        sb.Timestamp ≤ sa.Timestamp)
      ∧ (findTaskLastState A = none → findTaskLastState B = none))
      [c7TaskB.UpdateLastState (findTaskLastState c7TaskB),
        c7TaskA.UpdateLastState (findTaskLastState c7TaskA)] :=
  getLog_tasks_sorted c7Client "app"
    [c7TaskB.UpdateLastState (findTaskLastState c7TaskB),
      c7TaskA.UpdateLastState (findTaskLastState c7TaskA)] (by rfl)

theorem flatten_set_perm (x : String) (rest : List String) :
    ∀ (srcs : List (List String)) (i : Nat), srcs.get? i = some (x :: rest) →
      srcs.flatten.Perm (x :: (srcs.set i rest).flatten) := by
  intro srcs
  induction srcs with
  | nil => intro i h; simp at h
  | cons a as ih =>
    intro i h
    cases i with
    | zero =>
      simp at h
      subst h
      exact List.Perm.refl _
    | succ j =>
      simp only [List.get?_cons_succ] at h
      have hp := ih j h
      have h1 : (a ++ as.flatten).Perm (a ++ (x :: (as.set j rest).flatten)) :=
        List.Perm.append_left a hp
      have h2 : (a ++ (x :: (as.set j rest).flatten)).Perm
          (x :: (a ++ (as.set j rest).flatten)) := List.perm_middle
      simpa using h1.trans h2

theorem mergeStep_perm (s t : List (List String) × List String) (h : mergeStep s t) :
    (s.2 ++ s.1.flatten).Perm (t.2 ++ t.1.flatten) := by
  cases h with
  | deliver srcs out i x rest hget =>
    have hp := flatten_set_perm x rest srcs i hget
    have heq : (out ++ [x]) ++ (srcs.set i rest).flatten =
        out ++ (x :: (srcs.set i rest).flatten) := by simp
    dsimp only
    rw [heq]
    exact List.Perm.append_left out hp

theorem mergeReach_perm (s t : List (List String) × List String)
    (h : Relation.ReflTransGen mergeStep s t) :
    (s.2 ++ s.1.flatten).Perm (t.2 ++ t.1.flatten) := by
  induction h with
  | refl => exact List.Perm.refl _
  | tail hst hstep ih => exact ih.trans (mergeStep_perm _ _ hstep)

theorem mergeOutputs_perm (srcs : List (List String)) (out : List String)
    (h : mergeOutputs srcs out) : out.Perm srcs.flatten := by
  obtain ⟨final, hreach, hfin⟩ := h
  have hp := mergeReach_perm _ _ hreach
  have hf : final.flatten = [] := List.flatten_eq_nil_iff.mpr hfin
  rw [hf, List.append_nil] at hp
  simpa using hp.symm

theorem perm_pair_eq (l : List String) (a b : String) (h : l.Perm [a, b]) :
    l = [a, b] ∨ l = [b, a] := by
  have hlen : l.length = 2 := by simpa using h.length_eq
  cases l with
  | nil => simp at hlen
  | cons x t =>
    cases t with
    | nil => simp at hlen
    | cons y t2 =>
      cases t2 with
      | cons z t3 => simp at hlen
      | nil =>
        have hx : x ∈ [a, b] := h.mem_iff.mp (by simp)
        have hx2 : x = a ∨ x = b := by simpa using hx
        rcases hx2 with rfl | rfl
        · have h2 : [y].Perm [b] := h.cons_inv
          left
          have := List.perm_singleton.mp h2
          simp at this
          rw [this]
        · have h2 : ([x, y] : List String).Perm [x, a] := h.trans (List.Perm.swap x a [])
          have h3 : [y].Perm [a] := h2.cons_inv
          right
          have := List.perm_singleton.mp h3
          simp at this
          rw [this]

theorem mergeOutputs_ab (a b : String) : mergeOutputs [[a], [b]] [a, b] := by
  refine ⟨[[], []], ?_, by simp⟩
  have h1 : mergeStep ([[a], [b]], []) ([[], [b]], [a]) :=
    mergeStep.deliver [[a], [b]] [] 0 a [] (by rfl)
  have h2 : mergeStep ([[], [b]], [a]) ([[], []], [a, b]) :=
    mergeStep.deliver [[], [b]] [a] 1 b [] (by rfl)
  exact Relation.ReflTransGen.tail (Relation.ReflTransGen.tail Relation.ReflTransGen.refl h1) h2

theorem mergeOutputs_ba (a b : String) : mergeOutputs [[a], [b]] [b, a] := by
  refine ⟨[[], []], ?_, by simp⟩
  have h1 : mergeStep ([[a], [b]], []) ([[a], []], [b]) :=
    mergeStep.deliver [[a], [b]] [] 1 b [] (by rfl)
  have h2 : mergeStep ([[a], []], [b]) ([[], []], [b, a]) :=
    mergeStep.deliver [[a], []] [b] 0 a [] (by rfl)
  exact Relation.ReflTransGen.tail (Relation.ReflTransGen.tail Relation.ReflTransGen.refl h1) h2

/-- Claim C9: with two sources each emitting one chunk, every complete
run of the merger delivers both chunks exactly once, in one of the two
relative orders, and both orders are realizable; the merger accepts zero
sources, and a source with a pending chunk can always deliver it — no
condition on any other source. -/
theorem merge_spec (a b : String) :
    (∀ out, mergeOutputs [[a], [b]] out → out = [a, b] ∨ out = [b, a])
    ∧ mergeOutputs [[a], [b]] [a, b]
    ∧ mergeOutputs [[a], [b]] [b, a]
    ∧ mergeOutputs ([] : List (List String)) []
    ∧ (∀ (srcs : List (List String)) (out : List String) (i : Nat) (x : String)
        (rest : List String), srcs.get? i = some (x :: rest) →
        mergeStep (srcs, out) (srcs.set i rest, out ++ [x])) := by
  refine ⟨?_, mergeOutputs_ab a b, mergeOutputs_ba a b,
    ⟨[], Relation.ReflTransGen.refl, by simp⟩,
    fun srcs out i x rest h => mergeStep.deliver srcs out i x rest h⟩
  intro out hout
  have hp := mergeOutputs_perm _ _ hout
  have hp2 : out.Perm [a, b] := by simpa using hp
  exact perm_pair_eq out a b hp2

/-- Witness for `merge_spec`: the delivered order `["x", "y"]` is one of
the two admissible interleavings. -/
theorem merge_spec_witness :
    (["x", "y"] : List String) = ["x", "y"] ∨ (["x", "y"] : List String) = ["y", "x"] :=
  (merge_spec "x" "y").1 ["x", "y"] ((merge_spec "x" "y").2.1)
